import Mathlib

/-!
Shallow embedding of ParallelZipFile (parallelzipfile.py).

Bytes are modelled as natural numbers, byte strings as lists of naturals,
and the memory-mapped archive as one list of bytes addressed by absolute
offset.  Fallible operations return an Except value whose error type
mirrors the error taxonomy of the library: format errors raised while
parsing the directory, the per-entry unsupported-compression error, and
the missing-name lookup error.  External collaborators (the raw DEFLATE
and raw LZMA decoders and the text codecs) are passed in as function
parameters, matching their role as external capabilities.
-/

namespace PZip

/-- Error taxonomy of the library, mirroring the exceptions raised by
parallelzipfile.py (AssertionError and ValueError sites during parsing,
ValueError for a missing name, NotImplementedError for an unknown
compression method). -/
inductive ZipError where
  | formatNoEocd : ZipError
  | formatTruncated : ZipError
  | formatBadSignature : ZipError
  | formatUndecodable : ZipError
  | formatInsufficientZip64 : ZipError
  | notFound : String → ZipError
  | headerTooSmall : Nat → ZipError
  | unsupportedCompression : Nat → ZipError
  | externalFailure : ZipError
  deriving DecidableEq, Repr

/-- ZipInfo from parallelzipfile.py: information about one stored file. -/
structure ZipInfo where
  filename : String
  header_offset : Nat
  CRC : Nat
  compress_size : Nat
  file_size : Nat
  deriving DecidableEq, Repr

/-- Directories in a zip file should end with a slash, as in ZipInfo.is_dir. -/
def ZipInfo.isDir (i : ZipInfo) : Bool := i.filename.endsWith "/"

/-- The index built by the directory parser: a Python dict modelled as an
association list in insertion order. -/
abbrev Index := List (String × ZipInfo)

/-- Python dict assignment d[k] = v: replace the value in place if the key
is present (keeping its original position), otherwise append at the end. -/
def dictInsert (k : String) (v : ZipInfo) : Index → Index
  | [] => [(k, v)]
  | (k', v') :: rest =>
    if k' = k then (k, v) :: rest else (k', v') :: dictInsert k v rest

/-- Python dict lookup d[k]. -/
def dictLookup (k : String) : Index → Option ZipInfo
  | [] => none
  | (k', v') :: rest => if k' = k then some v' else dictLookup k rest

/-- Python list(d.keys()): keys in insertion order. -/
def dictKeys (d : Index) : List String := d.map Prod.fst

/-- Python list(d.values()): values in insertion order. -/
def dictValues (d : Index) : List ZipInfo := d.map Prod.snd

/-- Little-endian value of a whole byte list. -/
def leBytes : List Nat → Nat
  | [] => 0
  | b :: bs => b + 256 * leBytes bs

/-- struct.unpack of a little-endian 16-bit field at the head of a byte list. -/
def le16 (bs : List Nat) : Nat := leBytes (bs.take 2)

/-- struct.unpack of a little-endian 32-bit field at the head of a byte list. -/
def le32 (bs : List Nat) : Nat := leBytes (bs.take 4)

/-- struct.unpack of a little-endian 64-bit field at the head of a byte list. -/
def le64 (bs : List Nat) : Nat := leBytes (bs.take 8)

/-- Python slice m[off : off + len]: clamped at the end of the buffer,
never an error. -/
def sliceBytes (m : List Nat) (off len : Nat) : List Nat :=
  (m.drop off).take len

/-- Python bytes.rstrip applied with a NUL argument: drop all trailing
zero bytes. -/
def rstripNul (l : List Nat) : List Nat :=
  (l.reverse.dropWhile (fun b => b = 0)).reverse

/-- A text codec assignment: maps an encoding name and a byte string to
the decoded text, or none when the bytes are invalid for that encoding.
The concrete codecs live in the Python runtime, outside the library. -/
abbrev Codec := String → List Nat → Option String

/-- The fixed encoding fallback list from the source. -/
def encodingOrder : List String := ["utf-8", "windows-1252", "CP437"]

/-- The for/else loop of the source: try each encoding on the
NUL-stripped file name bytes, return the first successful decode,
and raise when every encoding fails. -/
def decodeLoop (codecOf : Codec) (bs : List Nat) : List String → Except ZipError String
  | [] => .error .formatUndecodable
  | enc :: rest =>
    match codecOf enc (rstripNul bs) with
    | some s => .ok s
    | none => decodeLoop codecOf bs rest

/-- File name decoding for one central-directory entry. -/
def decodeFilename (codecOf : Codec) (bs : List Nat) : Except ZipError String :=
  decodeLoop codecOf bs encodingOrder

/-- Third zip64 widening step of the source: when the 32-bit header
offset is the sentinel, assert that at least 8 extra bytes remain and
unpack the 64-bit offset from the LAST 8 bytes of the remaining extra
data (the source slices extra with a negative start here). -/
def widenStep3 (usize csize off : Nat) (extra : List Nat) :
    Except ZipError (Nat × Nat × Nat) :=
  if off = 4294967295 then
    if extra.length < 8 then .error .formatInsufficientZip64
    else .ok (usize, csize, le64 (extra.drop (extra.length - 8)))
  else .ok (usize, csize, off)

/-- Second zip64 widening step of the source: when the 32-bit compressed
size is the sentinel, consume the next 8 extra bytes as the 64-bit value. -/
def widenStep2 (usize csize off : Nat) (extra : List Nat) :
    Except ZipError (Nat × Nat × Nat) :=
  if csize = 4294967295 then
    if extra.length < 8 then .error .formatInsufficientZip64
    else widenStep3 usize (le64 extra) off (extra.drop 8)
  else widenStep3 usize csize off extra

/-- Zip64 widening of one central-directory entry, translated from the
source: skip the 4 leading bytes of the extra field (assumed tag and
size of the zip64 block), then widen the uncompressed size, the
compressed size and the header offset in that order whenever the
corresponding 32-bit field equals the sentinel 4294967295. -/
def widenZip64 (usize csize off : Nat) (extra0 : List Nat) :
    Except ZipError (Nat × Nat × Nat) :=
  let extra := extra0.drop 4
  if usize = 4294967295 then
    if extra.length < 8 then .error .formatInsufficientZip64
    else widenStep2 (le64 extra) csize off (extra.drop 8)
  else widenStep2 usize csize off extra

/-- Central-directory header signature PK 1 2. -/
def cdSig : List Nat := [80, 75, 1, 2]

/-- End-of-central-directory signature PK 5 6. -/
def eocdSig : List Nat := [80, 75, 5, 6]

/-- Zip64 end-of-central-directory locator signature PK 6 7. -/
def zip64LocatorSig : List Nat := [80, 75, 6, 7]

/-- Zip64 end-of-central-directory record signature PK 6 6. -/
def zip64EocdSig : List Nat := [80, 75, 6, 6]

/-- Whether the pattern occurs in l starting at index i. -/
def matchAt (pat l : List Nat) (i : Nat) : Bool :=
  decide ((l.drop i).take pat.length = pat)

/-- Python bytes.rfind: the largest index at which the pattern occurs,
or none when the pattern does not occur. -/
def rfindPat (pat l : List Nat) : Option Nat :=
  ((List.range l.length).filter (matchAt pat l)).getLast?

/-- The trailing window m[-(22 + 65536):] searched for the EOCD record. -/
def trailingWindow (m : List Nat) : List Nat :=
  m.drop (m.length - (22 + 65536))

/-- One iteration of the central-directory loop of _read_eocd_mmap: read
the 46-byte header at the running offset, check its signature, decode
the name, widen the zip64 fields, and return the finished pair together
with the offset of the next header. -/
def parseEntry (codecOf : Codec) (m : List Nat) (mo : Nat) :
    Except ZipError (String × ZipInfo × Nat) :=
  let header := sliceBytes m mo 46
  if header.length < 46 then .error .formatTruncated
  else if header.take 4 ≠ cdSig then .error .formatBadSignature
  else
    let crc32 := le32 (header.drop 16)
    let compressed_size := le32 (header.drop 20)
    let uncompressed_size := le32 (header.drop 24)
    let filename_length := le16 (header.drop 28)
    let extra_length := le16 (header.drop 30)
    let comment_length := le16 (header.drop 32)
    let offset := le32 (header.drop 42)
    let filename_bytes := sliceBytes m (mo + 46) filename_length
    let extra := sliceBytes m (mo + 46 + filename_length) extra_length
    let mo2 := mo + 46 + filename_length + extra_length + comment_length
    match decodeFilename codecOf filename_bytes with
    | .error e => .error e
    | .ok filename =>
      match widenZip64 uncompressed_size compressed_size offset extra with
      | .error e => .error e
      | .ok (usize, csize, off) =>
        .ok (filename, ZipInfo.mk filename off crc32 csize usize, mo2)

/-- The central-directory walk of _read_eocd_mmap: run the entry loop
num_files times, assigning each finished entry into the dict. -/
def parseCD (codecOf : Codec) (m : List Nat) :
    Nat → Nat → Index → Except ZipError Index
  | 0, _, files => .ok files
  | n + 1, mo, files =>
    match parseEntry codecOf m mo with
    | .error e => .error e
    | .ok (filename, info, mo2) =>
      parseCD codecOf m n mo2 (dictInsert filename info files)

/-- The same central-directory walk materialised as the list of
(name, info) pairs in directory scan order, without the dict collapse.
Used to state which entry each name is finally mapped to. -/
def parseCDList (codecOf : Codec) (m : List Nat) :
    Nat → Nat → Except ZipError (List (String × ZipInfo))
  | 0, _ => .ok []
  | n + 1, mo =>
    match parseEntry codecOf m mo with
    | .error e => .error e
    | .ok (filename, info, mo2) =>
      match parseCDList codecOf m n mo2 with
      | .error e => .error e
      | .ok es => .ok ((filename, info) :: es)

/-- Continuation of _read_eocd_mmap once the EOCD signature has been
located at the given index of the trailing window: decode the fixed EOCD
fields, optionally supersede the file count and directory offset from a
zip64 EOCD record reached through the locator, then walk the central
directory. -/
def eocdFound (codecOf : Codec) (m : List Nat) (offset32 : Nat) :
    Except ZipError Index :=
  let e := trailingWindow m
  let eocdBytes := sliceBytes e offset32 22
  if eocdBytes.length < 22 then .error .formatTruncated
  else if eocdBytes.take 4 ≠ eocdSig then .error .formatBadSignature
  else
    let num_files := le16 (eocdBytes.drop 8)
    let directory_offset := le32 (eocdBytes.drop 16)
    match rfindPat zip64LocatorSig e with
    | none => parseCD codecOf m num_files directory_offset []
    | some lo =>
      let offsetBytes := sliceBytes e (lo + 8) 8
      if offsetBytes.length < 8 then .error .formatTruncated
      else
        let eocd64 := sliceBytes m (le64 offsetBytes) 56
        if eocd64.length < 56 then .error .formatTruncated
        else if eocd64.take 4 ≠ zip64EocdSig then .error .formatBadSignature
        else
          parseCD codecOf m (le64 (eocd64.drop 24)) (le64 (eocd64.drop 48)) []

/-- Outcome of the backward EOCD search: absence of the signature is the
no-EOCD format error, otherwise parsing continues at the found index. -/
def dispatchEocd (codecOf : Codec) (m : List Nat) :
    Option Nat → Except ZipError Index
  | none => .error .formatNoEocd
  | some offset32 => eocdFound codecOf m offset32

/-- _read_eocd_mmap from the source: locate the EOCD record in the
trailing window and continue according to the search outcome. -/
def readEocdMmap (codecOf : Codec) (m : List Nat) : Except ZipError Index :=
  dispatchEocd codecOf m (rfindPat eocdSig (trailingWindow m))

/-- ParallelZipFile after construction: the index of stored files and the
memory-mapped archive bytes. -/
structure ParallelZipFile where
  files : Index
  m : List Nat
  deriving DecidableEq, Repr

/-- ParallelZipFile.namelist from the source. -/
def ParallelZipFile.namelist (z : ParallelZipFile) : List String :=
  dictKeys z.files

/-- ParallelZipFile.infolist from the source. -/
def ParallelZipFile.infolist (z : ParallelZipFile) : List ZipInfo :=
  dictValues z.files

/-- ParallelZipFile.read from the source.  The raw DEFLATE and raw LZMA
decoders are external capabilities passed as functions; the LZMA branch
first parses the embedded property header (2 reserved bytes, a 2-byte
property length, the property blob) exactly as the source does. -/
def ParallelZipFile.read
    (inflateRaw : List Nat → Except ZipError (List Nat))
    (lzmaRaw : List Nat → List Nat → Except ZipError (List Nat))
    (z : ParallelZipFile) (filename : String) : Except ZipError (List Nat) :=
  match dictLookup filename z.files with
  | none => .error (.notFound filename)
  | some fileinfo =>
    let offset := fileinfo.header_offset
    let header := sliceBytes z.m offset 30
    if header.length < 30 then .error (.headerTooSmall header.length)
    else
      let signature := le32 header
      let compression := le16 (header.drop 8)
      let compressed_size0 := le32 (header.drop 18)
      let filename_length := le16 (header.drop 26)
      let extra_length := le16 (header.drop 28)
      let compressed_size :=
        if compressed_size0 ≠ fileinfo.compress_size then fileinfo.compress_size
        else compressed_size0
      let offset2 := offset + 30 + filename_length + extra_length
      let compressed := sliceBytes z.m offset2 compressed_size
      if signature ≠ 67324752 then .error .formatBadSignature
      else if compression = 0 then .ok compressed
      else if compression = 8 then inflateRaw compressed
      else if compression = 14 then
        if compressed.length < 4 then .error .formatTruncated
        else
          let size := le16 (compressed.drop 2)
          if compressed.length < 4 + size then .error .formatTruncated
          else lzmaRaw (sliceBytes compressed 4 size) (compressed.drop (4 + size))
      else .error (.unsupportedCompression compression)

/-- A sequence of read calls against one reader, in order.  Used to state
that a failing read leaves later reads untouched. -/
def readMany (inflateRaw : List Nat → Except ZipError (List Nat))
    (lzmaRaw : List Nat → List Nat → Except ZipError (List Nat))
    (z : ParallelZipFile) : List String → List (Except ZipError (List Nat))
  | [] => []
  | n :: ns =>
    ParallelZipFile.read inflateRaw lzmaRaw z n :: readMany inflateRaw lzmaRaw z ns

/-!
Specification-side vocabulary.  The next definitions follow the words of
the specification, not the source; they exist to be compared against the
source-derived definitions above.
-/

/-- Zip64 widening as the specification words it: for each of the three
fields, in the fixed order uncompressed size, compressed size, header
offset, a sentinel field consumes the NEXT 8 bytes of the zip64 extra
data; a sentinel field with insufficient bytes is a format error; a
non-sentinel field is untouched.  This is the claimed behaviour, to be
compared with widenZip64. -/
def widenZip64Claim (usize csize off : Nat) (extra0 : List Nat) :
    Except ZipError (Nat × Nat × Nat) :=
  let extra := extra0.drop 4
  let nu := if usize = 4294967295 then 8 else 0
  let nc := if csize = 4294967295 then 8 else 0
  if usize = 4294967295 ∧ extra.length < 8 then .error .formatInsufficientZip64
  else if csize = 4294967295 ∧ extra.length < nu + 8 then .error .formatInsufficientZip64
  else if off = 4294967295 ∧ extra.length < nu + nc + 8 then .error .formatInsufficientZip64
  else .ok
    (if usize = 4294967295 then le64 extra else usize,
     if csize = 4294967295 then le64 (extra.drop nu) else csize,
     if off = 4294967295 then le64 (extra.drop (nu + nc)) else off)

/-- Zip64 widening as the code actually behaves, worded independently of
the sequential consumption: the sizes take successive 8-byte groups from
the front of the zip64 extra data, while a sentinel header offset is
taken from the LAST 8 bytes of that data. -/
def widenZip64Amended (usize csize off : Nat) (extra0 : List Nat) :
    Except ZipError (Nat × Nat × Nat) :=
  let extra := extra0.drop 4
  let nu := if usize = 4294967295 then 8 else 0
  let nc := if csize = 4294967295 then 8 else 0
  if usize = 4294967295 ∧ extra.length < 8 then .error .formatInsufficientZip64
  else if csize = 4294967295 ∧ extra.length < nu + 8 then .error .formatInsufficientZip64
  else if off = 4294967295 ∧ extra.length < nu + nc + 8 then .error .formatInsufficientZip64
  else .ok
    (if usize = 4294967295 then le64 extra else usize,
     if csize = 4294967295 then le64 (extra.drop nu) else csize,
     if off = 4294967295 then le64 (extra.drop (extra.length - 8)) else off)

/-- The value attached to the last occurrence of a key in a scan-order
list of (name, info) pairs, or none when the key never occurs. -/
def lastMatch (k : String) : List (String × ZipInfo) → Option ZipInfo
  | [] => none
  | p :: es =>
    match lastMatch k es with
    | some v => some v
    | none => if p.1 = k then some p.2 else none

/-- The keys a Python dict ends up with after assigning the given names
in order, given the keys already present: each name not seen before is
appended at its first occurrence. -/
def pyNewKeys : List String → List String → List String
  | _, [] => []
  | seen, n :: ns =>
    if n ∈ seen then pyNewKeys seen ns else n :: pyNewKeys (seen ++ [n]) ns

/-- Key order of a Python dict built by assigning the names in order into
an empty dict: first occurrences, in scan order. -/
def pyKeysOrder (names : List String) : List String := pyNewKeys [] names

/-- The 30-byte local file header window of an entry. -/
def localHeader (m : List Nat) (info : ZipInfo) : List Nat :=
  sliceBytes m info.header_offset 30

/-- The compression method field of the local file header. -/
def methodOf (m : List Nat) (info : ZipInfo) : Nat :=
  le16 ((localHeader m info).drop 8)

/-- Start of the compressed-data window: header offset plus the 30 fixed
bytes plus the name and extra lengths declared in the local header. -/
def dataStart (m : List Nat) (info : ZipInfo) : Nat :=
  info.header_offset + 30 + le16 ((localHeader m info).drop 26)
    + le16 ((localHeader m info).drop 28)

/-- The compressed-data window: starts at dataStart and takes the
central-directory compressed size, clamped at the end of the archive. -/
def dataWindow (m : List Nat) (info : ZipInfo) : List Nat :=
  sliceBytes m (dataStart m info) info.compress_size

/-!
Concrete fixtures used by the witness theorems: a total ASCII codec, the
identity stand-ins for the external decompressors, and small concrete
archives assembled byte by byte.
-/

/-- A concrete codec for witnesses: decodes pure ASCII byte strings and
rejects anything else, for every encoding name. -/
def asciiDecode (bs : List Nat) : Option String :=
  if bs.all (fun b => b < 128) then some (String.mk (bs.map Char.ofNat)) else none

/-- A codec assignment answering every encoding with the ASCII decoder. -/
def demoCodec : Codec := fun _ => asciiDecode

/-- Identity stand-in for the external raw DEFLATE decoder. -/
def okInflate : List Nat → Except ZipError (List Nat) := fun bs => .ok bs

/-- Identity stand-in for the external raw LZMA decoder. -/
def okLzma : List Nat → List Nat → Except ZipError (List Nat) := fun _ d => .ok d

/-- Local file header and data of entry a (stored, contents hi). -/
def demoLocal1 : List Nat :=
  [80,75,3,4, 20,0, 0,0, 0,0, 0,0, 0,0, 0,0,0,0, 2,0,0,0, 2,0,0,0, 1,0, 0,0]
    ++ [97] ++ [104,105]

/-- Local file header and data of entry b (method code 99). -/
def demoLocal2 : List Nat :=
  [80,75,3,4, 20,0, 0,0, 99,0, 0,0, 0,0, 0,0,0,0, 3,0,0,0, 3,0,0,0, 1,0, 0,0]
    ++ [98] ++ [1,2,3]

/-- Central-directory header of entry a. -/
def demoCD1 : List Nat :=
  [80,75,1,2, 20,0, 20,0, 0,0, 0,0, 0,0, 0,0, 0,0,0,0, 2,0,0,0, 2,0,0,0,
   1,0, 0,0, 0,0, 0,0, 0,0, 0,0,0,0, 0,0,0,0] ++ [97]

/-- Central-directory header of entry b. -/
def demoCD2 : List Nat :=
  [80,75,1,2, 20,0, 20,0, 0,0, 99,0, 0,0, 0,0, 0,0,0,0, 3,0,0,0, 3,0,0,0,
   1,0, 0,0, 0,0, 0,0, 0,0, 0,0,0,0, 33,0,0,0] ++ [98]

/-- End-of-central-directory record of the two-entry demo archive. -/
def demoEocd : List Nat :=
  [80,75,5,6, 0,0, 0,0, 2,0, 2,0, 94,0,0,0, 67,0,0,0, 0,0]

/-- A complete two-entry archive: entry a stored, entry b with the
unsupported method code 99. -/
def demoZip : List Nat := demoLocal1 ++ demoLocal2 ++ demoCD1 ++ demoCD2 ++ demoEocd

/-- The index the directory parser builds for demoZip. -/
def demoIndex : Index :=
  [("a", ZipInfo.mk "a" 0 0 2 2), ("b", ZipInfo.mk "b" 33 0 3 3)]

/-- An archive whose local header declares compressed size 0 while the
central directory records size 2: the stored contents are hi. -/
def lyingSizeZip : List Nat :=
  [80,75,3,4, 20,0, 0,0, 0,0, 0,0, 0,0, 0,0,0,0, 0,0,0,0, 2,0,0,0, 1,0, 0,0]
    ++ [99] ++ [104,105]

/-- Prebuilt index for lyingSizeZip: central-directory compressed size 2. -/
def lyingSizeIndex : Index := [("c", ZipInfo.mk "c" 0 0 2 2)]

/-- A truncated archive: the stored entry records compressed size 100 but
only 5 data bytes exist after the local header. -/
def truncatedZip : List Nat :=
  [80,75,3,4, 20,0, 0,0, 0,0, 0,0, 0,0, 0,0,0,0, 100,0,0,0, 100,0,0,0, 1,0, 0,0]
    ++ [116] ++ [7,8,9,10,11]

/-- Prebuilt index for truncatedZip. -/
def truncatedIndex : Index := [("t", ZipInfo.mk "t" 0 0 100 100)]

/-- The zip64 extra field of the C1 counterexample: a 4-byte block
header, then 16 bytes of payload whose first 8-byte group encodes 1 and
whose last 8-byte group encodes 2. -/
def c1Extra : List Nat :=
  [0,0,0,0] ++ [1,0,0,0,0,0,0,0] ++ [2,0,0,0,0,0,0,0]

/-- Local file header and data of the second entry of the duplicate-name
archive: also named a, stored, 3 data bytes. -/
def demoDupLocal2 : List Nat :=
  [80,75,3,4, 20,0, 0,0, 0,0, 0,0, 0,0, 0,0,0,0, 3,0,0,0, 3,0,0,0, 1,0, 0,0]
    ++ [97] ++ [1,2,3]

/-- Central-directory header of the second duplicate entry named a. -/
def demoDupCD2 : List Nat :=
  [80,75,1,2, 20,0, 20,0, 0,0, 0,0, 0,0, 0,0, 0,0,0,0, 3,0,0,0, 3,0,0,0,
   1,0, 0,0, 0,0, 0,0, 0,0, 0,0,0,0, 33,0,0,0] ++ [97]

/-- An archive whose central directory lists the name a twice. -/
def demoDupZip : List Nat :=
  demoLocal1 ++ demoDupLocal2 ++ demoCD1 ++ demoDupCD2 ++ demoEocd

/-- The index the parser builds for demoDupZip: one key, the value of
the later occurrence, at the position of the first occurrence. -/
def demoDupIndex : Index := [("a", ZipInfo.mk "a" 33 0 3 3)]

/-- The scan-order pair list of demoDupZip. -/
def demoDupEntries : List (String × ZipInfo) :=
  [("a", ZipInfo.mk "a" 0 0 2 2), ("a", ZipInfo.mk "a" 33 0 3 3)]

/-- Folding a scan-order list of (name, info) pairs into a dict by
repeated assignment, as the directory walk does. -/
def foldInsert (d : Index) (es : List (String × ZipInfo)) : Index :=
  es.foldl (fun acc p => dictInsert p.1 p.2 acc) d

/-!
Helper lemmas.
-/

/-- The compressed-size override in read collapses to the central value. -/
theorem override_collapse (a b : Nat) : (if a ≠ b then b else a) = b := by
  split_ifs with h
  · rfl
  · simpa using h

/-- Characterization of read once the name resolves and the local header
is complete: the signature is checked and the dispatch runs on the
central-size data window. -/
theorem read_unfold (inflateRaw : List Nat → Except ZipError (List Nat))
    (lzmaRaw : List Nat → List Nat → Except ZipError (List Nat))
    (files : Index) (m : List Nat) (name : String) (info : ZipInfo)
    (h1 : dictLookup name files = some info)
    (h2 : ¬ (localHeader m info).length < 30) :
    ParallelZipFile.read inflateRaw lzmaRaw ⟨files, m⟩ name =
      (if le32 (localHeader m info) ≠ 67324752 then .error .formatBadSignature
       else if methodOf m info = 0 then .ok (dataWindow m info)
       else if methodOf m info = 8 then inflateRaw (dataWindow m info)
       else if methodOf m info = 14 then
         (if (dataWindow m info).length < 4 then .error .formatTruncated
          else if (dataWindow m info).length < 4 + le16 ((dataWindow m info).drop 2) then
            .error .formatTruncated
          else lzmaRaw (sliceBytes (dataWindow m info) 4 (le16 ((dataWindow m info).drop 2)))
            ((dataWindow m info).drop (4 + le16 ((dataWindow m info).drop 2))))
       else .error (.unsupportedCompression (methodOf m info))) := by
  unfold localHeader at h2
  simp only [ParallelZipFile.read, h1, h2, if_false, override_collapse,
    localHeader, methodOf, dataWindow, dataStart]

/-- C2: for every entry, extraction treats the central-directory
compressed size as authoritative: whatever the local compressed-size
field holds, the data window starts at header_offset + 30 +
filename_length + extra_length and its length is the central-directory
compressed size, and the dispatch runs on exactly that window. -/
theorem read_central_size_authoritative
    (inflateRaw : List Nat → Except ZipError (List Nat))
    (lzmaRaw : List Nat → List Nat → Except ZipError (List Nat))
    (files : Index) (m : List Nat) (name : String) (info : ZipInfo)
    (h1 : dictLookup name files = some info)
    (h2 : ¬ (localHeader m info).length < 30)
    (h3 : le32 (localHeader m info) = 67324752) :
    ParallelZipFile.read inflateRaw lzmaRaw ⟨files, m⟩ name =
      (if methodOf m info = 0 then .ok (dataWindow m info)
       else if methodOf m info = 8 then inflateRaw (dataWindow m info)
       else if methodOf m info = 14 then
         (if (dataWindow m info).length < 4 then .error .formatTruncated
          else if (dataWindow m info).length < 4 + le16 ((dataWindow m info).drop 2) then
            .error .formatTruncated
          else lzmaRaw (sliceBytes (dataWindow m info) 4 (le16 ((dataWindow m info).drop 2)))
            ((dataWindow m info).drop (4 + le16 ((dataWindow m info).drop 2))))
       else .error (.unsupportedCompression (methodOf m info))) := by
  rw [read_unfold inflateRaw lzmaRaw files m name info h1 h2]
  simp [h3]

/-- Witness for C2: an archive whose local header lies (compressed size
0) while the central directory records 2; read returns the 2 stored
bytes anyway. -/
theorem read_central_size_authoritative_witness :
    ParallelZipFile.read okInflate okLzma ⟨lyingSizeIndex, lyingSizeZip⟩ "c" = .ok [104, 105] ∧
    le32 ((localHeader lyingSizeZip (ZipInfo.mk "c" 0 0 2 2)).drop 18) = 0 ∧
    (ZipInfo.mk "c" 0 0 2 2).compress_size = 2 := by
  refine ⟨?_, by decide, rfl⟩
  have h := read_central_size_authoritative okInflate okLzma lyingSizeIndex lyingSizeZip
    "c" (ZipInfo.mk "c" 0 0 2 2) (by decide) (by decide) (by decide)
  rw [h]
  rfl

/-- C3: when the method code of an entry is none of 0, 8 and 14, read
fails with the unsupported-compression error naming that code, and a
sequence of reads starting with the failing one continues with exactly
the reads that would have happened anyway. -/
theorem read_unsupported_method_error
    (inflateRaw : List Nat → Except ZipError (List Nat))
    (lzmaRaw : List Nat → List Nat → Except ZipError (List Nat))
    (files : Index) (m : List Nat) (name : String) (info : ZipInfo) (rest : List String)
    (h1 : dictLookup name files = some info)
    (h2 : ¬ (localHeader m info).length < 30)
    (h3 : le32 (localHeader m info) = 67324752)
    (h4 : methodOf m info ≠ 0) (h5 : methodOf m info ≠ 8) (h6 : methodOf m info ≠ 14) :
    ParallelZipFile.read inflateRaw lzmaRaw ⟨files, m⟩ name
        = .error (.unsupportedCompression (methodOf m info)) ∧
    readMany inflateRaw lzmaRaw ⟨files, m⟩ (name :: rest)
        = .error (.unsupportedCompression (methodOf m info))
            :: readMany inflateRaw lzmaRaw ⟨files, m⟩ rest := by
  have h := read_unfold inflateRaw lzmaRaw files m name info h1 h2
  rw [h3] at h
  simp only [h4, h5, h6, if_false, if_neg] at h
  refine ⟨by simpa using h, ?_⟩
  show ParallelZipFile.read inflateRaw lzmaRaw ⟨files, m⟩ name :: _ = _
  rw [show ParallelZipFile.read inflateRaw lzmaRaw ⟨files, m⟩ name
      = .error (.unsupportedCompression (methodOf m info)) from by simpa using h]

/-- Witness for C3: entry b of the demo archive uses method code 99;
reading it fails with that code and a following read of entry a still
returns its bytes. -/
theorem read_unsupported_method_error_witness :
    ParallelZipFile.read okInflate okLzma ⟨demoIndex, demoZip⟩ "b"
        = .error (.unsupportedCompression 99) ∧
    readMany okInflate okLzma ⟨demoIndex, demoZip⟩ ["b", "a"]
        = [.error (.unsupportedCompression 99), .ok [104, 105]] := by
  have h := read_unsupported_method_error okInflate okLzma demoIndex demoZip
    "b" (ZipInfo.mk "b" 33 0 3 3) ["a"]
    (by decide) (by decide) (by decide) (by decide) (by decide) (by decide)
  constructor
  · rw [h.1]
    rfl
  · rw [h.2]
    rfl

/-- C6: a name absent from the index fails with the not-found error, for
every archive byte view whatsoever, so the failure happens before any
access to the bytes. -/
theorem read_missing_name_not_found (files : Index) (name : String)
    (h : dictLookup name files = none) :
    ∀ (inflateRaw : List Nat → Except ZipError (List Nat))
      (lzmaRaw : List Nat → List Nat → Except ZipError (List Nat))
      (m : List Nat),
      ParallelZipFile.read inflateRaw lzmaRaw ⟨files, m⟩ name
        = .error (.notFound name) := by
  intro inflateRaw lzmaRaw m
  simp only [ParallelZipFile.read, h]

/-- Witness for C6: an empty index rejects any name on any byte view. -/
theorem read_missing_name_not_found_witness :
    ParallelZipFile.read okInflate okLzma ⟨[], []⟩ "x" = .error (.notFound "x") :=
  read_missing_name_not_found [] "x" rfl okInflate okLzma []

/-- C10: once the 30-byte local header check passes for a stored entry,
read succeeds with the data window clamped to the bytes actually
available: the result length is the minimum of the recorded compressed
size and the bytes remaining, with no error for a short window. -/
theorem read_truncated_window_silent
    (inflateRaw : List Nat → Except ZipError (List Nat))
    (lzmaRaw : List Nat → List Nat → Except ZipError (List Nat))
    (files : Index) (m : List Nat) (name : String) (info : ZipInfo)
    (h1 : dictLookup name files = some info)
    (h2 : ¬ (localHeader m info).length < 30)
    (h3 : le32 (localHeader m info) = 67324752)
    (h4 : methodOf m info = 0) :
    ParallelZipFile.read inflateRaw lzmaRaw ⟨files, m⟩ name = .ok (dataWindow m info) ∧
    (dataWindow m info).length = min info.compress_size (m.length - dataStart m info) := by
  constructor
  · rw [read_unfold inflateRaw lzmaRaw files m name info h1 h2]
    simp [h3, h4]
  · simp [dataWindow, sliceBytes, List.length_take, List.length_drop]

/-- Witness for C10: the truncated archive records compressed size 100
but holds only 5 data bytes; read returns those 5 bytes without error. -/
theorem read_truncated_window_silent_witness :
    ParallelZipFile.read okInflate okLzma ⟨truncatedIndex, truncatedZip⟩ "t"
        = .ok [7, 8, 9, 10, 11] ∧
    (ZipInfo.mk "t" 0 0 100 100).compress_size = 100 := by
  have h := read_truncated_window_silent okInflate okLzma truncatedIndex truncatedZip
    "t" (ZipInfo.mk "t" 0 0 100 100) (by decide) (by decide) (by decide) (by decide)
  refine ⟨?_, rfl⟩
  rw [h.1]
  rfl

end PZip

namespace PZip

/-- Counterexample for C1: with only the header offset at the sentinel
and 16 payload bytes in the zip64 extra field, the parser takes the LAST
8 bytes (value 2), while the claimed next-8-bytes reading gives 1. -/
theorem widen_offset_not_next8_counterexample :
    widenZip64 100 100 4294967295 c1Extra = .ok (100, 100, 2) ∧
    widenZip64Claim 100 100 4294967295 c1Extra = .ok (100, 100, 1) ∧
    widenZip64 100 100 4294967295 c1Extra ≠ widenZip64Claim 100 100 4294967295 c1Extra := by
  refine ⟨rfl, rfl, ?_⟩
  intro h
  rw [show widenZip64 100 100 4294967295 c1Extra = .ok (100, 100, 2) from rfl,
    show widenZip64Claim 100 100 4294967295 c1Extra = .ok (100, 100, 1) from rfl] at h
  simp at h

/-- C1 as amended: the sizes widen by consuming successive 8-byte groups
from the front of the zip64 extra data, in the order uncompressed size
then compressed size; a sentinel header offset instead takes the LAST 8
bytes of that data; a sentinel field with insufficient bytes is a format
error; a non-sentinel field is never overridden. -/
theorem widen_zip64_amended (usize csize off : Nat) (extra0 : List Nat) :
    widenZip64 usize csize off extra0 = widenZip64Amended usize csize off extra0 := by
  unfold widenZip64 widenZip64Amended widenStep2 widenStep3
  by_cases hu : usize = 4294967295 <;> by_cases hc : csize = 4294967295 <;>
    by_cases ho : off = 4294967295 <;>
      simp only [hu, hc, ho, if_true, if_false, ite_true, ite_false,
        true_and, false_and, and_true, and_false,
        List.length_drop, List.drop_drop] <;>
      split_ifs <;> first
        | rfl
        | omega
        | (simp only [Except.ok.injEq, Prod.mk.injEq]

           refine ⟨?_, ?_, ?_⟩ <;> first
            | trivial
            | (refine congrArg le64 (congrArg (fun k => List.drop k extra0) ?_); omega))

end PZip

namespace PZip

/-- Dropping a leading all-zero block does not change where the zero
run stops. -/
theorem dropWhile_zero_replicate_append (k : Nat) (l : List Nat) :
    List.dropWhile (fun b => decide (b = 0)) (List.replicate k 0 ++ l)
      = List.dropWhile (fun b => decide (b = 0)) l := by
  induction k with
  | zero => rfl
  | succ n ih => simp [List.replicate_succ, List.dropWhile_cons, ih]

/-- Appended trailing NUL bytes vanish under the right strip. -/
theorem rstripNul_append_replicate (bs : List Nat) (k : Nat) :
    rstripNul (bs ++ List.replicate k 0) = rstripNul bs := by
  unfold rstripNul
  rw [List.reverse_append, List.reverse_replicate,
    dropWhile_zero_replicate_append]

/-- C9: the parser strips all trailing NUL bytes of the raw file name
before any decoding attempt, so a stored name with trailing NULs decodes
exactly as the NUL-stripped name does, for every codec assignment. -/
theorem filename_trailing_nul_stripped (codecOf : Codec) (bs : List Nat) (k : Nat) :
    rstripNul (bs ++ List.replicate k 0) = rstripNul bs ∧
    decodeFilename codecOf (bs ++ List.replicate k 0) = decodeFilename codecOf bs := by
  have hstrip := rstripNul_append_replicate bs k
  refine ⟨hstrip, ?_⟩
  unfold decodeFilename
  have hloop : ∀ es, decodeLoop codecOf (bs ++ List.replicate k 0) es
      = decodeLoop codecOf bs es := by
    intro es
    induction es with
    | nil => rfl
    | cons e rest ih => simp [decodeLoop, hstrip, ih]
  exact hloop encodingOrder

/-- C4: the file name is decoded by trying utf-8, then windows-1252,
then CP437, in that fixed order, taking the first codec that succeeds;
when all three fail the result is the undecodable-name format error. -/
theorem decode_filename_encoding_order (codecOf : Codec) (bs : List Nat) :
    decodeFilename codecOf bs =
      (match codecOf "utf-8" (rstripNul bs) with
       | some s => .ok s
       | none =>
         match codecOf "windows-1252" (rstripNul bs) with
         | some s => .ok s
         | none =>
           match codecOf "CP437" (rstripNul bs) with
           | some s => .ok s
           | none => .error .formatUndecodable) := by
  unfold decodeFilename encodingOrder
  cases h1 : codecOf "utf-8" (rstripNul bs) <;>
    simp only [decodeLoop, h1]

end PZip

namespace PZip

/-- Keys of a cons cell. -/
theorem dictKeys_cons (k : String) (v : ZipInfo) (d : Index) :
    dictKeys ((k, v) :: d) = k :: dictKeys d := rfl

/-- Lookup after one dict assignment: the assigned key maps to the new
value, every other key is untouched. -/
theorem dictLookup_dictInsert (a b : String) (v : ZipInfo) (d : Index) :
    dictLookup b (dictInsert a v d) = if a = b then some v else dictLookup b d := by
  induction d with
  | nil => simp [dictInsert, dictLookup]
  | cons p rest ih =>
    obtain ⟨pk, pv⟩ := p
    by_cases h : pk = a
    · subst h
      by_cases hb : pk = b <;> simp [dictInsert, dictLookup, hb]
    · have ha : ¬ a = pk := fun he => h he.symm
      by_cases hb : pk = b
      · subst hb
        simp [dictInsert, dictLookup, h, ha]
      · simp [dictInsert, dictLookup, h, hb, ih]

/-- Keys after one dict assignment: unchanged for a present key, the new
key appended for an absent one. -/
theorem dictKeys_dictInsert (a : String) (v : ZipInfo) (d : Index) :
    dictKeys (dictInsert a v d)
      = if a ∈ dictKeys d then dictKeys d else dictKeys d ++ [a] := by
  induction d with
  | nil => simp [dictInsert, dictKeys]
  | cons p rest ih =>
    obtain ⟨pk, pv⟩ := p
    by_cases h : pk = a
    · subst h
      have hmem : pk ∈ dictKeys ((pk, pv) :: rest) := by simp [dictKeys_cons]
      simp [dictInsert, hmem, dictKeys_cons]
    · have ha : ¬ a = pk := fun he => h he.symm
      simp only [dictInsert, if_neg h, dictKeys_cons, ih]
      by_cases hm : a ∈ dictKeys rest
      · rw [if_pos hm, if_pos (by simp [dictKeys_cons, hm])]
      · rw [if_neg hm, if_neg (by simp [dictKeys_cons, hm, ha]), List.cons_append]

/-- Every pair of an assigned dict is the assigned pair or an original one. -/
theorem mem_dictInsert (p : String × ZipInfo) (a : String) (v : ZipInfo) (d : Index)
    (h : p ∈ dictInsert a v d) : p = (a, v) ∨ p ∈ d := by
  induction d with
  | nil => simpa [dictInsert] using h
  | cons q rest ih =>
    obtain ⟨qk, qv⟩ := q
    by_cases hq : qk = a
    · subst hq
      simp only [dictInsert, if_pos rfl] at h
      rcases List.mem_cons.mp h with h | h
      · exact Or.inl h
      · exact Or.inr (List.mem_cons_of_mem _ h)
    · simp only [dictInsert, if_neg hq] at h
      rcases List.mem_cons.mp h with h | h
      · exact Or.inr (h ▸ List.mem_cons_self _ _)
      · rcases ih h with h1 | h1
        · exact Or.inl h1
        · exact Or.inr (List.mem_cons_of_mem _ h1)

/-- Lookup in a fold of assignments: the last matching pair of the list
wins, and a key the list never assigns falls through to the initial dict. -/
theorem dictLookup_foldInsert (k : String) :
    ∀ (es : List (String × ZipInfo)) (d : Index),
      dictLookup k (foldInsert d es)
        = (match lastMatch k es with
           | some v => some v
           | none => dictLookup k d) := by
  intro es
  induction es with
  | nil => intro d; simp [foldInsert, lastMatch]
  | cons p rest ih =>
    intro d
    show dictLookup k (foldInsert (dictInsert p.1 p.2 d) rest) = _
    rw [ih]
    cases hlast : lastMatch k rest with
    | some v => simp [lastMatch, hlast]
    | none =>
      simp only [lastMatch, hlast, dictLookup_dictInsert]
      split_ifs <;> rfl

/-- Keys of a fold of assignments: the keys already present, then the
first occurrences of the new names in scan order. -/
theorem dictKeys_foldInsert :
    ∀ (es : List (String × ZipInfo)) (d : Index),
      dictKeys (foldInsert d es)
        = dictKeys d ++ pyNewKeys (dictKeys d) (es.map Prod.fst) := by
  intro es
  induction es with
  | nil => intro d; simp [foldInsert, pyNewKeys]
  | cons p rest ih =>
    intro d
    show dictKeys (foldInsert (dictInsert p.1 p.2 d) rest) = _
    rw [ih, dictKeys_dictInsert]
    by_cases h : p.1 ∈ dictKeys d
    · rw [if_pos h]
      simp only [List.map_cons, pyNewKeys, if_pos h]
    · rw [if_neg h]
      simp only [List.map_cons, pyNewKeys, if_neg h, List.append_assoc,
        List.singleton_append]

/-- In a dict whose values carry their own key as file name, the key
list is the file-name list of the values. -/
theorem dictKeys_eq_values_filenames (d : Index)
    (h : ∀ p ∈ d, (Prod.snd p).filename = Prod.fst p) :
    dictKeys d = (dictValues d).map ZipInfo.filename := by
  induction d with
  | nil => rfl
  | cons p rest ih =>
    obtain ⟨pk, pv⟩ := p
    have hp := h (pk, pv) (List.mem_cons_self _ _)
    simp only [dictKeys, dictValues, List.map_cons] at *
    rw [ih fun q hq => h q (List.mem_cons_of_mem _ hq), hp]

/-- The file-name invariant survives a fold of assignments. -/
theorem foldInsert_filename_inv :
    ∀ (es : List (String × ZipInfo)) (d : Index),
      (∀ p ∈ d, (Prod.snd p).filename = Prod.fst p) →
      (∀ p ∈ es, (Prod.snd p).filename = Prod.fst p) →
      ∀ p ∈ foldInsert d es, (Prod.snd p).filename = Prod.fst p := by
  intro es
  induction es with
  | nil => intro d hd _ p hp; exact hd p hp
  | cons q rest ih =>
    intro d hd hes p hp
    have hq := hes q (List.mem_cons_self _ _)
    refine ih (dictInsert q.1 q.2 d) ?_ (fun r hr => hes r (List.mem_cons_of_mem _ hr)) p hp
    intro r hr
    rcases mem_dictInsert r q.1 q.2 d hr with h | h
    · rw [h]
      exact hq
    · exact hd r h

/-- An entry finished by the loop body carries its own key as file name. -/
theorem parseEntry_filename (codecOf : Codec) (m : List Nat) (mo : Nat)
    (filename : String) (info : ZipInfo) (mo2 : Nat)
    (h : parseEntry codecOf m mo = .ok (filename, info, mo2)) :
    info.filename = filename := by
  simp only [parseEntry] at h
  split_ifs at h
  split at h
  · simp at h
  · split at h
    · simp at h
    · simp only [Except.ok.injEq, Prod.mk.injEq] at h
      rw [← h.2.1]
      exact h.1

/-- Every pair produced by the list view of the directory walk carries
its own key as file name. -/
theorem parseCDList_filename_inv (codecOf : Codec) (m : List Nat) :
    ∀ (n mo : Nat) (es : List (String × ZipInfo)),
      parseCDList codecOf m n mo = .ok es →
      ∀ p ∈ es, (Prod.snd p).filename = Prod.fst p := by
  intro n
  induction n with
  | zero =>
    intro mo es h p hp
    simp only [parseCDList] at h
    cases h
    simp at hp
  | succ n ih =>
    intro mo es h p hp
    simp only [parseCDList] at h
    cases hent : parseEntry codecOf m mo with
    | error e => simp [hent] at h
    | ok t =>
      obtain ⟨filename, info, mo2⟩ := t
      rw [hent] at h
      cases hrest : parseCDList codecOf m n mo2 with
      | error e => simp [hrest] at h
      | ok es1 =>
        simp only [hrest, Except.ok.injEq] at h
        subst h
        rcases List.mem_cons.mp hp with h | h
        · rw [h]
          exact parseEntry_filename codecOf m mo filename info mo2 hent
        · exact ih mo2 es1 hrest p h

/-- The dict built by the directory walk is the fold of the scan-order
pair list. -/
theorem parseCD_eq_parseCDList (codecOf : Codec) (m : List Nat) :
    ∀ (n mo : Nat) (files : Index),
      parseCD codecOf m n mo files
        = (parseCDList codecOf m n mo).map (fun es => foldInsert files es) := by
  intro n
  induction n with
  | zero => intro mo files; rfl
  | succ n ih =>
    intro mo files
    simp only [parseCD, parseCDList]
    cases hent : parseEntry codecOf m mo with
    | error e => rfl
    | ok t =>
      obtain ⟨filename, info, mo2⟩ := t
      show parseCD codecOf m n mo2 (dictInsert filename info files)
          = Except.map (fun es => foldInsert files es)
              (match parseCDList codecOf m n mo2 with
               | .error e => .error e
               | .ok es => .ok ((filename, info) :: es))
      rw [ih]
      cases parseCDList codecOf m n mo2 with
      | error e => rfl
      | ok es => rfl


end PZip

namespace PZip

/-- C5: when the trailing window holds no end-of-central-directory
signature anywhere, the parser fails with the no-EOCD format error and
returns no index. -/
theorem parse_no_eocd_error (codecOf : Codec) (m : List Nat)
    (h : ∀ i, i < (trailingWindow m).length →
      matchAt eocdSig (trailingWindow m) i = false) :
    readEocdMmap codecOf m = .error .formatNoEocd := by
  have hf : rfindPat eocdSig (trailingWindow m) = none := by
    unfold rfindPat
    have hnil : (List.range (trailingWindow m).length).filter
        (matchAt eocdSig (trailingWindow m)) = [] := by
      rw [List.filter_eq_nil_iff]
      intro a ha
      rw [List.mem_range] at ha
      simp [h a ha]
    rw [hnil]
    rfl
  unfold readEocdMmap
  rw [hf]
  rfl

/-- Witness for C5: a three-byte file has no EOCD signature and is
rejected. -/
theorem parse_no_eocd_error_witness :
    readEocdMmap demoCodec [1, 2, 3] = .error .formatNoEocd :=
  parse_no_eocd_error demoCodec [1, 2, 3] (by decide)

/-- C7: the index built by the directory walk maps every name to the
entry of its last occurrence in scan order, lists its keys as the first
occurrences of the scanned names in scan order, and aligns namelist with
infolist so that the key at each position is the file name of the value
at that position. -/
theorem index_last_wins_and_order (codecOf : Codec) (m : List Nat) (n mo : Nat)
    (files : Index) (entries : List (String × ZipInfo))
    (h1 : parseCD codecOf m n mo [] = .ok files)
    (h2 : parseCDList codecOf m n mo = .ok entries) :
    (∀ name, dictLookup name files = lastMatch name entries) ∧
    dictKeys files = pyKeysOrder (entries.map Prod.fst) ∧
    ∀ mv : List Nat, ParallelZipFile.namelist ⟨files, mv⟩
      = (ParallelZipFile.infolist ⟨files, mv⟩).map ZipInfo.filename := by
  have hfold : files = foldInsert [] entries := by
    have hrel := parseCD_eq_parseCDList codecOf m n mo []
    rw [h1, h2] at hrel
    simpa [Except.map] using hrel
  subst hfold
  refine ⟨?_, ?_, ?_⟩
  · intro name
    rw [dictLookup_foldInsert]
    cases lastMatch name entries <;> simp [dictLookup]
  · rw [dictKeys_foldInsert]
    simp [pyKeysOrder, dictKeys]
  · intro mv
    show dictKeys (foldInsert [] entries)
      = (dictValues (foldInsert [] entries)).map ZipInfo.filename
    exact dictKeys_eq_values_filenames _
      (foldInsert_filename_inv entries [] (by simp)
        (parseCDList_filename_inv codecOf m n mo entries h2))

set_option maxRecDepth 100000 in
/-- Witness for C7: the duplicate-name archive lists the name a twice;
the index holds one entry for a, the one of the later occurrence, and
namelist aligns with infolist. -/
theorem index_last_wins_and_order_witness :
    dictLookup "a" demoDupIndex = lastMatch "a" demoDupEntries ∧
    dictKeys demoDupIndex = pyKeysOrder (demoDupEntries.map Prod.fst) ∧
    ParallelZipFile.namelist ⟨demoDupIndex, demoDupZip⟩
      = (ParallelZipFile.infolist ⟨demoDupIndex, demoDupZip⟩).map ZipInfo.filename ∧
    dictLookup "a" demoDupIndex = some (ZipInfo.mk "a" 33 0 3 3) := by
  have h := index_last_wins_and_order demoCodec demoDupZip 2 67
    demoDupIndex demoDupEntries (by rfl) (by rfl)
  exact ⟨h.1 "a", h.2.1, h.2.2 demoDupZip, rfl⟩

/-- C8: read is deterministic on a fixed reader, two reads of the same
name in sequence return the very same value, and two runs of the
directory parser on the same bytes give indexes with identical
name-to-entry mappings. -/
theorem read_and_parse_deterministic
    (inflateRaw : List Nat → Except ZipError (List Nat))
    (lzmaRaw : List Nat → List Nat → Except ZipError (List Nat))
    (z : ParallelZipFile) (name : String)
    (codecOf : Codec) (m : List Nat) (files1 files2 : Index)
    (h1 : readEocdMmap codecOf m = .ok files1)
    (h2 : readEocdMmap codecOf m = .ok files2) :
    readMany inflateRaw lzmaRaw z [name, name]
      = [ParallelZipFile.read inflateRaw lzmaRaw z name,
         ParallelZipFile.read inflateRaw lzmaRaw z name] ∧
    ∀ nm, dictLookup nm files1 = dictLookup nm files2 := by
  refine ⟨rfl, ?_⟩
  intro nm
  rw [h1] at h2
  cases h2
  rfl

set_option maxRecDepth 100000 in
/-- Witness for C8: parsing the demo archive twice gives the same index,
and reading entry a twice gives the same bytes twice. -/
theorem read_and_parse_deterministic_witness :
    readMany okInflate okLzma ⟨demoIndex, demoZip⟩ ["a", "a"]
      = [ParallelZipFile.read okInflate okLzma ⟨demoIndex, demoZip⟩ "a",
         ParallelZipFile.read okInflate okLzma ⟨demoIndex, demoZip⟩ "a"] ∧
    dictLookup "a" demoIndex = dictLookup "a" demoIndex := by
  have h := read_and_parse_deterministic okInflate okLzma ⟨demoIndex, demoZip⟩ "a"
    demoCodec demoZip demoIndex demoIndex (by rfl) (by rfl)
  exact ⟨h.1, h.2 "a"⟩

end PZip
